import Mathlib

/-!
# Template engine: attribute evaluation, printing and the HTML render glue

A shallow embedding of `internal/html/tag_attr.go` (`Attr.Print`, `Attr.String`,
`Attr.Evaluate`) and of `render.go` (`RenderToString`, `htmlRender.Reload`,
`htmlRender.GetTemplate`).

Conventions of the embedding.

* A Go `string` and the `[]byte` obtained from it are the same Lean `String`.
* A Go `*string` is an `Option String`; `nil` is `none`.
* A Go `error` is `Option (GoError X)`; `nil` is `none`.
* A two-valued Go return `(v, err)` is a Lean pair.
* Calls into collaborators that live outside the embedded files (the
  expression evaluator, the template-manager factory) are pure functions taken
  as parameters; every call made is recorded in a ghost call log so that
  "is called" and "is not called" are statements about the log.
-/

set_option autoImplicit false

namespace Tpl

/-! ## Go runtime values used by the embedded code -/

/-- Go `error` values. `errorf msg` is the value built by `fmt.Errorf(msg)` for a
format string without verbs; `foreign x` is any error value produced by a
collaborator, kept opaque. -/
inductive GoError (X : Type) where
  | errorf (msg : String)
  | foreign (x : X)
  deriving DecidableEq

/-- The `Error()` message of a Go error; `describe` gives the message of the
opaque collaborator errors. -/
def GoError.Error {X : Type} (describe : X → String) : GoError X → String
  | .errorf msg => msg
  | .foreign x => describe x

/-- Go `strings.Builder`: the text accumulated so far. -/
structure Builder where
  data : String
  deriving DecidableEq

/-- The zero value `var sb strings.Builder`. -/
def Builder.zero : Builder := ⟨""⟩

/-- Go `(*strings.Builder).WriteString`: appends and never fails. -/
def Builder.WriteString (sb : Builder) (s : String) : Builder := ⟨sb.data ++ s⟩

/-- Go `(*strings.Builder).Write`: appends the bytes and never fails. -/
def Builder.Write (sb : Builder) (p : String) : Builder := ⟨sb.data ++ p⟩

/-- Go `(*strings.Builder).String`. -/
def Builder.String (sb : Builder) : String := sb.data

/-- Go `io.Writer`, as seen by a caller that discards the byte count.
`data` is what the sink has accepted so far. `failure data p` is the sink's
answer to `Write(p)` in that state: `none` when the write succeeds (all of `p`
is accepted), `some (n, e)` when it fails with error `e` after accepting the
first `n` characters of `p`. -/
structure Writer (X : Type) where
  data : String
  failure : String → String → Option (Nat × GoError X)

/-- One call `w.Write(p)`: the sink afterwards and the returned error. -/
def Writer.Write {X : Type} (w : Writer X) (p : String) : Writer X × Option (GoError X) :=
  match w.failure w.data p with
  | none => ({ w with data := w.data ++ p }, none)
  | some (n, e) => ({ w with data := w.data ++ p.take n }, some e)

/-! ## Data model of `internal/html` -/

/-- Modelled from the spec: the declaration of the token kind is not part of the
embedded files. The spec lists exactly these five kinds. -/
inductive Kind where
  | BegEnd
  | Literal
  | CodeStart
  | CodeValue
  | CodeEnd
  deriving DecidableEq

/-- Modelled from the spec: the declaration of `CodeToken` is not part of the
embedded files. These are the fields `Attr.Evaluate` reads: the kind, the raw
text (meaningful for `Literal`), the parsed expression (meaningful for
`CodeValue`) and the position where the expression begins. `Pos` and `Tree` are
the position type and the expression-tree type, both kept abstract. -/
structure CodeToken (Pos Tree : Type) where
  Kind : Kind
  Value : String
  Tree : Tree
  Start : Pos
  deriving DecidableEq

/-- The struct `Attr` of `tag_attr.go`. `ValueTokens []*CodeToken` is the list of
the tokens pointed to: the tokenizer stores no nil pointer. -/
structure Attr (Pos Tree : Type) where
  Name : String
  NameStart : Pos
  NameEnd : Pos
  Value : Option String
  ValueStart : Pos
  ValueEnd : Pos
  ValueTokens : List (CodeToken Pos Tree)
  deriving DecidableEq

/-! ## `Attr.Print`, `Attr.String`, `Attr.Evaluate` -/

/-- The method `(*Attr).Print` of `tag_attr.go`: the sink after the call and the
returned error. -/
def Attr.Print {Pos Tree X : Type} (a : Attr Pos Tree) (w : Writer X) :
    Writer X × Option (GoError X) :=
  match w.Write (" " ++ a.Name) with
  | (w1, some err) => (w1, some err)
  | (w1, none) =>
    match a.Value with
    | some v =>
      match w1.Write ("=" ++ v) with
      | (w2, some err) => (w2, some err)
      | (w2, none) => (w2, none)
    | none => (w1, none)

/-- What `Attr.Evaluate` hands back: the two Go return values and the ghost log
of the calls made to `exp.Evaluate`, oldest first, each recorded by the
`(Start, Tree)` arguments it was given (the scope argument is always the
caller's `input`). -/
structure EvalOutcome (Pos Tree X : Type) where
  str : String
  err : Option (GoError X)
  calls : List (Pos × Tree)
  deriving DecidableEq

/-- The `for _, tok := range a.ValueTokens` loop of `Attr.Evaluate`, started on
the remaining tokens with the builder and call log reached so far.
`eval` is `exp.Evaluate` and `sprintv` is `fmt.Sprintf("%v", ·)`. -/
def Attr.evaluateLoop {Pos Tree Scope V X : Type}
    (eval : Pos → Tree → Scope → Except (GoError X) V) (sprintv : V → String)
    (input : Scope) :
    List (CodeToken Pos Tree) → Builder → List (Pos × Tree) → EvalOutcome Pos Tree X
  | [], buf, calls => ⟨buf.String, none, calls⟩
  | tok :: rest, buf, calls =>
    match tok.Kind with
    | .BegEnd => Attr.evaluateLoop eval sprintv input rest buf calls
    | .Literal => Attr.evaluateLoop eval sprintv input rest (buf.WriteString tok.Value) calls
    | .CodeStart => Attr.evaluateLoop eval sprintv input rest buf calls
    | .CodeValue =>
      match eval tok.Start tok.Tree input with
      | .error err => ⟨"", some err, calls ++ [(tok.Start, tok.Tree)]⟩
      | .ok result =>
        Attr.evaluateLoop eval sprintv input rest (buf.WriteString (sprintv result))
          (calls ++ [(tok.Start, tok.Tree)])
    | .CodeEnd => Attr.evaluateLoop eval sprintv input rest buf calls

/-- The method `(*Attr).Evaluate` of `tag_attr.go`. `eval` is `exp.Evaluate` and
`sprintv` is `fmt.Sprintf("%v", ·)`, both collaborators outside the embedded
files. -/
def Attr.Evaluate {Pos Tree Scope V X : Type}
    (eval : Pos → Tree → Scope → Except (GoError X) V) (sprintv : V → String)
    (a : Attr Pos Tree) (input : Scope) : EvalOutcome Pos Tree X :=
  match a.Value with
  | none => ⟨"", some (GoError.errorf "no value"), []⟩
  | some v =>
    if a.ValueTokens.length = 0 then ⟨v, none, []⟩
    else Attr.evaluateLoop eval sprintv input a.ValueTokens Builder.zero []

/-- The method `(*Attr).String` of `tag_attr.go`. `posString` is `Pos.String`,
whose definition is not part of the embedded files. It is declared after
`Attr.Evaluate` only because, once it exists, the name `String` inside the
`Attr` namespace refers to it. -/
def Attr.String {Pos Tree : Type} (posString : Pos → String) (a : Attr Pos Tree) : String :=
  let sb := Builder.zero
  let sb := sb.WriteString (posString a.NameStart)
  let sb := sb.WriteString "|"
  let sb := sb.WriteString a.Name
  let sb := sb.WriteString "|"
  let sb := sb.WriteString (posString a.NameEnd)
  match a.Value with
  | some v =>
    let sb := sb.WriteString "="
    let sb := sb.WriteString (posString a.ValueStart)
    let sb := sb.WriteString "|"
    let sb := sb.WriteString v
    let sb := sb.WriteString "|"
    let sb := sb.WriteString (posString a.ValueEnd)
    sb.String
  | none => sb.String

/-! ## `types/types.go` and `render.go` -/

/-- The interface `types.Template`. `RenderToString` only ever hands a template
a `strings.Builder`, whose writes all succeed, so an implementation is described
by what it does on such a sink: for each `data`, the chunks it passes to
`w.Write`, in order, and the error `Execute` finally returns. -/
structure Template (Data X : Type) where
  behaviour : Data → List String × Option (GoError X)

/-- The call `tpl.Execute(&sb, data)` on a `strings.Builder`: every chunk is
written to the builder, then the error is returned. -/
def Template.Execute {Data X : Type} (tpl : Template Data X) (sb : Builder) (data : Data) :
    Builder × Option (GoError X) :=
  ((tpl.behaviour data).1.foldl Builder.Write sb, (tpl.behaviour data).2)

/-- The function `RenderToString` of `render.go`. -/
def RenderToString {Data X : Type} (tpl : Template Data X) (data : Data) :
    String × Option (GoError X) :=
  let sb := Builder.zero
  match tpl.Execute sb data with
  | (sb, err) => (sb.String, err)

/-- The interface `types.TemplateManager`: `GetTemplate(name)` returns the Go
pair `(Template, error)`; `T` is the type of non-nil templates. -/
structure TemplateManager (T X : Type) where
  GetTemplate : String → Option T × Option (GoError X)

/-- The type `types.Factory`: a builder either fails with an error or hands
back a manager (the manager value returned next to a non-nil error is never
looked at by `render.go`). -/
abbrev Factory (Ctx T X : Type) : Type := Ctx → Except (GoError X) (TemplateManager T X)

/-- The struct `htmlRender` of `render.go`. -/
structure htmlRender (Ctx T X : Type) where
  hotReload : Bool
  builder : Factory Ctx T X
  manager : TemplateManager T X

/-- What `htmlRender.Reload` leaves behind: the returned error, the receiver
after the call, and the ghost log of the contexts the builder was invoked
with. -/
structure ReloadOutcome (Ctx T X : Type) where
  err : Option (GoError X)
  self : htmlRender Ctx T X
  built : List Ctx

/-- The method `(*htmlRender).Reload` of `render.go`. -/
def htmlRender.Reload {Ctx T X : Type} (h : htmlRender Ctx T X) (ctx : Ctx) :
    ReloadOutcome Ctx T X :=
  match h.builder ctx with
  | .error _ => ⟨none, h, [ctx]⟩
  | .ok m => ⟨none, { h with manager := m }, [ctx]⟩

/-- What `htmlRender.GetTemplate` leaves behind: the returned Go pair, the
receiver after the call, and the ghost log of the contexts the builder was
invoked with. -/
structure GetTemplateOutcome (Ctx T X : Type) where
  tpl : Option T
  err : Option (GoError X)
  self : htmlRender Ctx T X
  built : List Ctx

/-- The method `(*htmlRender).GetTemplate` of `render.go`. -/
def htmlRender.GetTemplate {Ctx T X : Type} (h : htmlRender Ctx T X) (ctx : Ctx)
    (tplName : String) : GetTemplateOutcome Ctx T X :=
  let m0 := h.manager
  let step : TemplateManager T X × Option (GoError X) × List Ctx :=
    if h.hotReload then
      match h.builder ctx with
      | .ok m1 => (m1, none, [ctx])
      | .error e => (m0, some e, [ctx])
    else (m0, none, [])
  match step with
  | (_, some err, built) => ⟨none, some err, h, built⟩
  | (m, none, built) => ⟨(m.GetTemplate tplName).1, (m.GetTemplate tplName).2, h, built⟩

/-! ## Specification-side vocabulary -/

/-- The text one token contributes to an evaluated attribute, in the words of
the specification: a `Literal` gives its text, a `CodeValue` gives the default
textual form of its evaluated result, every other kind gives nothing. -/
def tokenText {Pos Tree Scope V X : Type}
    (eval : Pos → Tree → Scope → Except (GoError X) V) (sprintv : V → String)
    (input : Scope) (tok : CodeToken Pos Tree) : String :=
  match tok.Kind with
  | .Literal => tok.Value
  | .CodeValue =>
    match eval tok.Start tok.Tree input with
    | .ok result => sprintv result
    | .error _ => ""
  | _ => ""

/-- The evaluator calls a token sequence asks for when every one of them is
made: one per `CodeValue` token, in token order. -/
def codeCalls {Pos Tree : Type} : List (CodeToken Pos Tree) → List (Pos × Tree)
  | [] => []
  | tok :: rest =>
    if tok.Kind = Kind.CodeValue then (tok.Start, tok.Tree) :: codeCalls rest
    else codeCalls rest

/-- The evaluator succeeds on every `CodeValue` token of the sequence. -/
def AllSucceed {Pos Tree Scope V X : Type}
    (eval : Pos → Tree → Scope → Except (GoError X) V) (input : Scope)
    (toks : List (CodeToken Pos Tree)) : Prop :=
  ∀ tok ∈ toks, tok.Kind = Kind.CodeValue → (eval tok.Start tok.Tree input).isOk = true

instance {Pos Tree Scope V X : Type}
    (eval : Pos → Tree → Scope → Except (GoError X) V) (input : Scope)
    (toks : List (CodeToken Pos Tree)) : Decidable (AllSucceed eval input toks) :=
  inferInstanceAs (Decidable (∀ tok ∈ toks, tok.Kind = Kind.CodeValue →
    (eval tok.Start tok.Tree input).isOk = true))

/-! ## Concrete instances

Positions are written `line:column`, an expression tree is the name of the
variable it reads, a scope is an association list, and evaluating a variable
the scope does not bind is an error. -/

/-- An evaluator for the one-variable expressions of the examples. -/
def demoEval (_start : String) (tree : String) (scope : List (String × String)) :
    Except (GoError String) String :=
  match scope.lookup tree with
  | some v => .ok v
  | none => .error (.foreign ("undefined: " ++ tree))

/-- The scope binding `name` to `Ann`. -/
def demoScope : List (String × String) := [("name", "Ann")]

/-- The attribute `title=hi $\x7bname\x7d`, compiled. -/
def demoAttr : Attr String String where
  Name := "title"
  NameStart := "1:4"
  NameEnd := "1:9"
  Value := some "hi $\x7bname\x7d"
  ValueStart := "1:10"
  ValueEnd := "1:20"
  ValueTokens :=
    [⟨Kind.Literal, "hi ", "", "1:10"⟩, ⟨Kind.CodeStart, "", "", "1:13"⟩,
     ⟨Kind.CodeValue, "", "name", "1:15"⟩, ⟨Kind.CodeEnd, "", "", "1:19"⟩]

/-- The attribute `class=hello`: a value without expressions. -/
def plainAttr : Attr String String where
  Name := "class"
  NameStart := "2:4"
  NameEnd := "2:9"
  Value := some "hello"
  ValueStart := "2:10"
  ValueEnd := "2:15"
  ValueTokens := []

/-- The valueless attribute `disabled`; its token list is deliberately not
empty. -/
def flagAttr : Attr String String where
  Name := "disabled"
  NameStart := "3:4"
  NameEnd := "3:12"
  Value := none
  ValueStart := ""
  ValueEnd := ""
  ValueTokens := [⟨Kind.CodeValue, "", "name", "3:4"⟩]

/-- An attribute whose second expression reads an unbound variable; a literal
and a successful expression come before it, another expression after it. -/
def failAttr : Attr String String where
  Name := "alt"
  NameStart := "4:4"
  NameEnd := "4:7"
  Value := some "raw"
  ValueStart := "4:8"
  ValueEnd := "4:40"
  ValueTokens :=
    [⟨Kind.Literal, "a", "", "4:8"⟩, ⟨Kind.CodeValue, "", "name", "4:11"⟩,
     ⟨Kind.Literal, "-", "", "4:16"⟩, ⟨Kind.CodeValue, "", "missing", "4:19"⟩,
     ⟨Kind.CodeValue, "", "name", "4:29"⟩]

/-- A sink that accepts every write and already holds some text. -/
def okSink : Writer String := ⟨"<a", fun _ _ => none⟩

/-- A template that writes two chunks and then fails. -/
def brokenTemplate : Template Unit String :=
  ⟨fun _ => (["<p>par", "tial"], some (GoError.errorf "execute failed"))⟩

/-- A manager that knows every name and tags its templates `old`. -/
def oldManager : TemplateManager String String :=
  ⟨fun name => (some ("old/" ++ name), none)⟩

/-- A manager that knows every name and tags its templates `new`. -/
def newManager : TemplateManager String String :=
  ⟨fun name => (some ("new/" ++ name), none)⟩

/-- A builder that always succeeds with `newManager`. -/
def okBuilder : Factory Unit String String := fun _ => .ok newManager

/-- A builder that always fails. -/
def badBuilder : Factory Unit String String := fun _ => .error (GoError.errorf "parse failed")

/-! ## Auxiliary facts -/

theorem foldl_append_join (l : List String) (acc : String) :
    l.foldl (fun r s => r ++ s) acc = acc ++ String.join l := by
  induction l generalizing acc with
  | nil => simp [String.join]
  | cons x xs ih =>
    have h1 := ih (acc ++ x)
    have h2 := ih ("" ++ x)
    simp only [String.join, List.foldl_cons] at h1 h2 ⊢
    rw [h1, h2, String.empty_append, String.append_assoc]

theorem join_cons (x : String) (xs : List String) :
    String.join (x :: xs) = x ++ String.join xs := by
  have h := foldl_append_join xs ("" ++ x)
  simp only [String.join, List.foldl_cons] at h ⊢
  rw [h, String.empty_append]

theorem isOk_iff {ε α : Type} (r : Except ε α) : r.isOk = true ↔ ∃ v, r = .ok v := by
  cases r <;> simp [Except.isOk, Except.toBool]

theorem AllSucceed.tail {Pos Tree Scope V X : Type}
    {eval : Pos → Tree → Scope → Except (GoError X) V} {input : Scope}
    {tok : CodeToken Pos Tree} {rest : List (CodeToken Pos Tree)}
    (h : AllSucceed eval input (tok :: rest)) : AllSucceed eval input rest :=
  fun t ht hk => h t (List.mem_cons_of_mem _ ht) hk

/-- The loop on a sequence whose `CodeValue` tokens all evaluate: it appends
each token's text to the builder and logs one call per `CodeValue` token. -/
theorem evaluateLoop_allSucceed {Pos Tree Scope V X : Type}
    (eval : Pos → Tree → Scope → Except (GoError X) V) (sprintv : V → String)
    (input : Scope) (toks : List (CodeToken Pos Tree)) (buf : Builder)
    (calls : List (Pos × Tree)) (hok : AllSucceed eval input toks) :
    Attr.evaluateLoop eval sprintv input toks buf calls =
      ⟨buf.data ++ String.join (toks.map (tokenText eval sprintv input)), none,
        calls ++ codeCalls toks⟩ := by
  induction toks generalizing buf calls with
  | nil => simp [Attr.evaluateLoop, Builder.String, codeCalls, String.join]
  | cons tok rest ih =>
    have hrest := hok.tail
    have hhead := hok tok (List.mem_cons_self _ _)
    rw [Attr.evaluateLoop, List.map_cons, join_cons]
    cases hk : tok.Kind with
    | BegEnd => simp [ih _ _ hrest, tokenText, codeCalls, hk]
    | Literal =>
      simp [ih _ _ hrest, tokenText, codeCalls, hk, Builder.WriteString, String.append_assoc]
    | CodeStart => simp [ih _ _ hrest, tokenText, codeCalls, hk]
    | CodeEnd => simp [ih _ _ hrest, tokenText, codeCalls, hk]
    | CodeValue =>
      obtain ⟨r, hr⟩ := (isOk_iff _).1 (hhead hk)
      simp [ih _ _ hrest, tokenText, codeCalls, hk, hr, Builder.WriteString,
        String.append_assoc]

/-- The loop on a sequence whose first failing `CodeValue` token is `t`: it
stops there with the empty string and that token's error, having called the
evaluator for the `CodeValue` tokens before `t` and for `t`, and for nothing
after it. -/
theorem evaluateLoop_firstFailure {Pos Tree Scope V X : Type}
    (eval : Pos → Tree → Scope → Except (GoError X) V) (sprintv : V → String)
    (input : Scope) (pre post : List (CodeToken Pos Tree)) (t : CodeToken Pos Tree)
    (e : GoError X) (buf : Builder) (calls : List (Pos × Tree))
    (hpre : AllSucceed eval input pre) (hk : t.Kind = Kind.CodeValue)
    (hfail : eval t.Start t.Tree input = .error e) :
    Attr.evaluateLoop eval sprintv input (pre ++ t :: post) buf calls =
      ⟨"", some e, calls ++ codeCalls pre ++ [(t.Start, t.Tree)]⟩ := by
  induction pre generalizing buf calls with
  | nil => simp [Attr.evaluateLoop, hk, hfail, codeCalls]
  | cons tok rest ih =>
    have hrest := hpre.tail
    have hhead := hpre tok (List.mem_cons_self _ _)
    rw [List.cons_append, Attr.evaluateLoop]
    cases hk2 : tok.Kind with
    | BegEnd => simp [ih _ _ hrest, codeCalls, hk2]
    | Literal => simp [ih _ _ hrest, codeCalls, hk2]
    | CodeStart => simp [ih _ _ hrest, codeCalls, hk2]
    | CodeEnd => simp [ih _ _ hrest, codeCalls, hk2]
    | CodeValue =>
      obtain ⟨r, hr⟩ := (isOk_iff _).1 (hhead hk2)
      simp [ih _ _ hrest, codeCalls, hk2, hr]

/-- A sequence on which some `CodeValue` token fails splits at its first
failing `CodeValue` token. -/
theorem exists_firstFailure {Pos Tree Scope V X : Type}
    (eval : Pos → Tree → Scope → Except (GoError X) V) (input : Scope)
    (toks : List (CodeToken Pos Tree))
    (hex : ∃ tok ∈ toks, tok.Kind = Kind.CodeValue ∧
      ∃ e, eval tok.Start tok.Tree input = .error e) :
    ∃ pre t post e, toks = pre ++ t :: post ∧ AllSucceed eval input pre ∧
      t.Kind = Kind.CodeValue ∧ eval t.Start t.Tree input = .error e := by
  induction toks with
  | nil => obtain ⟨tok, hmem, _⟩ := hex; cases hmem
  | cons tok rest ih =>
    by_cases hhere : tok.Kind = Kind.CodeValue ∧ ∃ e, eval tok.Start tok.Tree input = .error e
    · obtain ⟨hk, e, he⟩ := hhere
      exact ⟨[], tok, rest, e, rfl, fun _ h => (by cases h), hk, he⟩
    · have hex2 : ∃ t ∈ rest, t.Kind = Kind.CodeValue ∧
          ∃ e, eval t.Start t.Tree input = .error e := by
        obtain ⟨t, hmem, hk, e, he⟩ := hex
        rcases List.mem_cons.1 hmem with rfl | hmem
        · exact absurd ⟨hk, e, he⟩ hhere
        · exact ⟨t, hmem, hk, e, he⟩
      obtain ⟨pre, t, post, e, hsplit, hpre, hk, he⟩ := ih hex2
      refine ⟨tok :: pre, t, post, e, by rw [hsplit, List.cons_append], ?_, hk, he⟩
      intro x hx hxk
      rcases List.mem_cons.1 hx with rfl | hx
      · cases hr : eval x.Start x.Tree input with
        | ok v => simp [Except.isOk, Except.toBool]
        | error e2 => exact absurd ⟨hxk, e2, hr⟩ hhere
      · exact hpre x hx hxk

/-- The loop depends on the scope only through the evaluator's outcomes on the
`CodeValue` tokens. -/
theorem evaluateLoop_congr {Pos Tree Scope V X : Type}
    (eval : Pos → Tree → Scope → Except (GoError X) V) (sprintv : V → String)
    (s1 s2 : Scope) (toks : List (CodeToken Pos Tree)) (buf : Builder)
    (calls : List (Pos × Tree))
    (hsame : ∀ tok ∈ toks, tok.Kind = Kind.CodeValue →
      eval tok.Start tok.Tree s1 = eval tok.Start tok.Tree s2) :
    Attr.evaluateLoop eval sprintv s1 toks buf calls =
      Attr.evaluateLoop eval sprintv s2 toks buf calls := by
  induction toks generalizing buf calls with
  | nil => simp [Attr.evaluateLoop]
  | cons tok rest ih =>
    have hrest : ∀ t ∈ rest, t.Kind = Kind.CodeValue →
        eval t.Start t.Tree s1 = eval t.Start t.Tree s2 :=
      fun t ht hk => hsame t (List.mem_cons_of_mem _ ht) hk
    have hhead := hsame tok (List.mem_cons_self _ _)
    rw [Attr.evaluateLoop, Attr.evaluateLoop]
    cases hk : tok.Kind with
    | BegEnd => simp [ih _ _ hrest]
    | Literal => simp [ih _ _ hrest]
    | CodeStart => simp [ih _ _ hrest]
    | CodeEnd => simp [ih _ _ hrest]
    | CodeValue =>
      rw [hhead hk]
      cases eval tok.Start tok.Tree s2 with
      | error e => rfl
      | ok r => simp [ih _ _ hrest]

/-! ## `Attr.Evaluate` -/

/-- C1. When the value is present, the token list is non-empty and the
evaluator succeeds on every `CodeValue` token, `Attr.Evaluate` returns no error
and the concatenation, in token order, of each token's text: a `Literal` gives
its text, a `CodeValue` the `%v` form of its evaluated result, the three marker
kinds nothing. The outcome is the same whatever the raw value text is. -/
theorem evaluate_concatenates_tokens {Pos Tree Scope V X : Type}
    (eval : Pos → Tree → Scope → Except (GoError X) V) (sprintv : V → String)
    (a : Attr Pos Tree) (input : Scope) (v : String)
    (hv : a.Value = some v) (hne : a.ValueTokens ≠ [])
    (hok : AllSucceed eval input a.ValueTokens) :
    (Attr.Evaluate eval sprintv a input).err = none ∧
    (Attr.Evaluate eval sprintv a input).str =
      String.join (a.ValueTokens.map (tokenText eval sprintv input)) ∧
    ∀ v2 : String, Attr.Evaluate eval sprintv { a with Value := some v2 } input =
      Attr.Evaluate eval sprintv a input := by
  have hlen : ¬ a.ValueTokens.length = 0 := fun h => hne (List.length_eq_zero.1 h)
  have hrun := evaluateLoop_allSucceed eval sprintv input a.ValueTokens Builder.zero [] hok
  have hany : ∀ w : String, Attr.Evaluate eval sprintv { a with Value := some w } input =
      ⟨String.join (a.ValueTokens.map (tokenText eval sprintv input)), none,
        codeCalls a.ValueTokens⟩ := by
    intro w
    simp only [Attr.Evaluate, hlen, if_false]
    rw [hrun]
    simp [Builder.zero]
  have hself : Attr.Evaluate eval sprintv a input =
      ⟨String.join (a.ValueTokens.map (tokenText eval sprintv input)), none,
        codeCalls a.ValueTokens⟩ := by
    have h := hany v
    rwa [← hv] at h
  refine ⟨by rw [hself], by rw [hself], fun v2 => by rw [hany v2, hself]⟩

/-- C1 at the specification's example: `[Literal "hi ", CodeStart, CodeValue,
CodeEnd]` with the expression evaluating to `Ann` gives `hi Ann`. -/
theorem evaluate_concatenates_tokens_witness :
    (Attr.Evaluate demoEval id demoAttr demoScope).err = none ∧
    (Attr.Evaluate demoEval id demoAttr demoScope).str = "hi Ann" ∧
    ∀ v2 : String, Attr.Evaluate demoEval id { demoAttr with Value := some v2 } demoScope =
      Attr.Evaluate demoEval id demoAttr demoScope :=
  evaluate_concatenates_tokens demoEval id demoAttr demoScope "hi $\x7bname\x7d" rfl
    (by decide) (by decide)

/-- C2. When the value is present and the evaluator fails on some `CodeValue`
token, the token list splits at its first failing `CodeValue` token `t`, and
`Attr.Evaluate` returns the empty string with exactly the error the evaluator
gave for `t`; the evaluator was called for the `CodeValue` tokens before `t`
and for `t`, and for no token after `t`. -/
theorem evaluate_first_failure {Pos Tree Scope V X : Type}
    (eval : Pos → Tree → Scope → Except (GoError X) V) (sprintv : V → String)
    (a : Attr Pos Tree) (input : Scope) (v : String) (hv : a.Value = some v)
    (hex : ∃ tok ∈ a.ValueTokens, tok.Kind = Kind.CodeValue ∧
      ∃ e, eval tok.Start tok.Tree input = .error e) :
    ∃ pre t post e, a.ValueTokens = pre ++ t :: post ∧ AllSucceed eval input pre ∧
      t.Kind = Kind.CodeValue ∧ eval t.Start t.Tree input = .error e ∧
      Attr.Evaluate eval sprintv a input =
        ⟨"", some e, codeCalls pre ++ [(t.Start, t.Tree)]⟩ := by
  obtain ⟨pre, t, post, e, hsplit, hpre, hk, he⟩ :=
    exists_firstFailure eval input a.ValueTokens hex
  refine ⟨pre, t, post, e, hsplit, hpre, hk, he, ?_⟩
  have hlen : ¬ a.ValueTokens.length = 0 := by
    rw [hsplit]; simp
  have hrun := evaluateLoop_firstFailure eval sprintv input pre post t e Builder.zero []
    hpre hk he
  simp only [Attr.Evaluate, hv, hlen, if_false]
  rw [hsplit, hrun, List.nil_append]

/-- C2 at an attribute whose fourth token fails after a literal and a
successful expression: the outcome is the empty string and the fourth token's
error, and the fifth token is never evaluated. -/
theorem evaluate_first_failure_witness :
    (∃ pre t post e, failAttr.ValueTokens = pre ++ t :: post ∧
      AllSucceed demoEval demoScope pre ∧ t.Kind = Kind.CodeValue ∧
      demoEval t.Start t.Tree demoScope = .error e ∧
      Attr.Evaluate demoEval id failAttr demoScope =
        ⟨"", some e, codeCalls pre ++ [(t.Start, t.Tree)]⟩) ∧
    Attr.Evaluate demoEval id failAttr demoScope =
      ⟨"", some (GoError.foreign "undefined: missing"),
        [("4:11", "name"), ("4:19", "missing")]⟩ :=
  ⟨evaluate_first_failure demoEval id failAttr demoScope "raw" rfl
      ⟨⟨Kind.CodeValue, "", "missing", "4:19"⟩, by decide, rfl, _, rfl⟩,
    by decide⟩

/-- C3. When the value is absent, `Attr.Evaluate` returns the empty string and
an error whose message is `no value`, and makes no call to the evaluator,
whatever the scope and the token list are. -/
theorem evaluate_no_value {Pos Tree Scope V X : Type}
    (eval : Pos → Tree → Scope → Except (GoError X) V) (sprintv : V → String)
    (a : Attr Pos Tree) (input : Scope) (hv : a.Value = none) :
    (Attr.Evaluate eval sprintv a input).str = "" ∧
    (Attr.Evaluate eval sprintv a input).calls = [] ∧
    ∃ err, (Attr.Evaluate eval sprintv a input).err = some err ∧
      ∀ describe : X → String, err.Error describe = "no value" := by
  refine ⟨?_, ?_, GoError.errorf "no value", ?_, fun _ => rfl⟩ <;> simp [Attr.Evaluate, hv]

/-- C3 at a valueless attribute that carries a `CodeValue` token. -/
theorem evaluate_no_value_witness :
    (Attr.Evaluate demoEval id flagAttr demoScope).str = "" ∧
    (Attr.Evaluate demoEval id flagAttr demoScope).calls = [] ∧
    ∃ err, (Attr.Evaluate demoEval id flagAttr demoScope).err = some err ∧
      ∀ describe : String → String, err.Error describe = "no value" :=
  evaluate_no_value demoEval id flagAttr demoScope rfl

/-- C4. When the value is present and the token list is empty,
`Attr.Evaluate` returns the raw value unchanged with no error and makes no call
to the evaluator, for every scope. -/
theorem evaluate_fast_path {Pos Tree Scope V X : Type}
    (eval : Pos → Tree → Scope → Except (GoError X) V) (sprintv : V → String)
    (a : Attr Pos Tree) (input : Scope) (v : String)
    (hv : a.Value = some v) (hnil : a.ValueTokens = []) :
    Attr.Evaluate eval sprintv a input = ⟨v, none, []⟩ := by
  simp [Attr.Evaluate, hv, hnil]

/-- C4 at the specification's example: the value `hello` with no tokens
evaluates to `hello`, here under the empty scope. -/
theorem evaluate_fast_path_witness :
    Attr.Evaluate demoEval id plainAttr [] = ⟨"hello", none, []⟩ :=
  evaluate_fast_path demoEval id plainAttr [] "hello" rfl rfl

/-- C5. If the evaluator gives the same outcome under two scopes on every
`CodeValue` token of an attribute, `Attr.Evaluate` returns the same string and
the same error under both (and makes the same calls). -/
theorem evaluate_scope_only_through_evaluator {Pos Tree Scope V X : Type}
    (eval : Pos → Tree → Scope → Except (GoError X) V) (sprintv : V → String)
    (a : Attr Pos Tree) (s1 s2 : Scope)
    (hsame : ∀ tok ∈ a.ValueTokens, tok.Kind = Kind.CodeValue →
      eval tok.Start tok.Tree s1 = eval tok.Start tok.Tree s2) :
    (Attr.Evaluate eval sprintv a s1).str = (Attr.Evaluate eval sprintv a s2).str ∧
    (Attr.Evaluate eval sprintv a s1).err = (Attr.Evaluate eval sprintv a s2).err ∧
    (Attr.Evaluate eval sprintv a s1).calls = (Attr.Evaluate eval sprintv a s2).calls := by
  have hrun := evaluateLoop_congr eval sprintv s1 s2 a.ValueTokens Builder.zero [] hsame
  have hall : Attr.Evaluate eval sprintv a s1 = Attr.Evaluate eval sprintv a s2 := by
    simp only [Attr.Evaluate, hrun]
  rw [hall]
  exact ⟨rfl, rfl, rfl⟩

/-- C5 at two different scopes that bind `name` alike. -/
theorem evaluate_scope_only_through_evaluator_witness :
    (Attr.Evaluate demoEval id demoAttr demoScope).str =
      (Attr.Evaluate demoEval id demoAttr (("other", "x") :: demoScope)).str ∧
    (Attr.Evaluate demoEval id demoAttr demoScope).err =
      (Attr.Evaluate demoEval id demoAttr (("other", "x") :: demoScope)).err ∧
    (Attr.Evaluate demoEval id demoAttr demoScope).calls =
      (Attr.Evaluate demoEval id demoAttr (("other", "x") :: demoScope)).calls :=
  evaluate_scope_only_through_evaluator demoEval id demoAttr demoScope
    (("other", "x") :: demoScope) (by
      intro tok hmem _
      simp only [demoAttr, List.mem_cons, List.mem_singleton, List.not_mem_nil, or_false] at hmem
      rcases hmem with rfl | rfl | rfl | rfl <;> rfl)

/-! ## `Attr.Print` and `Attr.String` -/

/-- C6. On a sink whose writes all succeed, `Attr.Print` returns no error and
appends exactly a space and the name when the value is absent, and a space, the
name, `=` and the raw value text when it is present; the outcome is the same
for every token list. -/
theorem print_minimal_form {Pos Tree X : Type} (a : Attr Pos Tree) (w : Writer X)
    (hw : ∀ d p, w.failure d p = none) :
    (a.Print w).2 = none ∧
    (a.Value = none → (a.Print w).1.data = w.data ++ (" " ++ a.Name)) ∧
    (∀ v, a.Value = some v → (a.Print w).1.data = w.data ++ (" " ++ a.Name ++ "=" ++ v)) ∧
    ∀ toks : List (CodeToken Pos Tree),
      Attr.Print { a with ValueTokens := toks } w = a.Print w := by
  refine ⟨?_, ?_, ?_, fun _ => rfl⟩
  · cases hv : a.Value <;> simp [Attr.Print, Writer.Write, hw, hv]
  · intro hv
    simp [Attr.Print, Writer.Write, hw, hv]
  · intro v hv
    simp [Attr.Print, Writer.Write, hw, hv, String.append_assoc]

/-- C6 at an attribute with a value and at a valueless one, on a sink that
already holds `<a`. -/
theorem print_minimal_form_witness :
    ((demoAttr.Print okSink).2 = none ∧
      (demoAttr.Value = none →
        (demoAttr.Print okSink).1.data = okSink.data ++ (" " ++ demoAttr.Name)) ∧
      (∀ v, demoAttr.Value = some v →
        (demoAttr.Print okSink).1.data = okSink.data ++ (" " ++ demoAttr.Name ++ "=" ++ v)) ∧
      ∀ toks : List (CodeToken String String),
        Attr.Print { demoAttr with ValueTokens := toks } okSink =
        demoAttr.Print okSink) ∧
    (demoAttr.Print okSink).1.data = "<a title=hi $\x7bname\x7d" ∧
    (flagAttr.Print okSink).1.data = "<a disabled" :=
  ⟨print_minimal_form demoAttr okSink (fun _ _ => rfl), by decide, by decide⟩

/-- C7. `Attr.String` is `NameStart|Name|NameEnd` when the value is absent and
that text followed by `=ValueStart|Value|ValueEnd` when it is present, also for
a present empty value; it is the same for every token list. -/
theorem string_stable_form {Pos Tree : Type} (posString : Pos → String) (a : Attr Pos Tree) :
    (a.Value = none →
      a.String posString = posString a.NameStart ++ "|" ++ a.Name ++ "|" ++ posString a.NameEnd) ∧
    (∀ v, a.Value = some v →
      a.String posString =
        posString a.NameStart ++ "|" ++ a.Name ++ "|" ++ posString a.NameEnd ++
          ("=" ++ posString a.ValueStart ++ "|" ++ v ++ "|" ++ posString a.ValueEnd)) ∧
    ∀ toks : List (CodeToken Pos Tree),
      Attr.String posString { a with ValueTokens := toks } = a.String posString := by
  refine ⟨?_, ?_, fun _ => rfl⟩
  · intro hv
    simp [Attr.String, Builder.zero, Builder.WriteString, Builder.String, hv]
  · intro v hv
    simp [Attr.String, Builder.zero, Builder.WriteString, Builder.String, hv,
      String.append_assoc]

/-- C7 at an attribute with a value, at a valueless one, and at one whose
value is present and empty. -/
theorem string_stable_form_witness :
    ((demoAttr.Value = none →
        demoAttr.String id = id demoAttr.NameStart ++ "|" ++ demoAttr.Name ++ "|" ++
          id demoAttr.NameEnd) ∧
      (∀ v, demoAttr.Value = some v →
        demoAttr.String id =
          id demoAttr.NameStart ++ "|" ++ demoAttr.Name ++ "|" ++ id demoAttr.NameEnd ++
            ("=" ++ id demoAttr.ValueStart ++ "|" ++ v ++ "|" ++ id demoAttr.ValueEnd)) ∧
      ∀ toks : List (CodeToken String String),
        Attr.String id { demoAttr with ValueTokens := toks } = demoAttr.String id) ∧
    demoAttr.String id = "1:4|title|1:9=1:10|hi $\x7bname\x7d|1:20" ∧
    flagAttr.String id = "3:4|disabled|3:12" ∧
    Attr.String id { plainAttr with Value := some "" } = "2:4|class|2:9=2:10||2:15" :=
  ⟨string_stable_form id demoAttr, by decide, by decide, by decide⟩

/-! ## `RenderToString` -/

/-- C8, as stated, fails: a template that writes `<p>par` and `tial` and then
returns an error makes `RenderToString` return that error together with the
text already written, not with the empty string. -/
theorem renderToString_keeps_partial_output :
    (brokenTemplate.Execute Builder.zero ()).2 = some (GoError.errorf "execute failed") ∧
    RenderToString brokenTemplate () =
      ("<p>partial", some (GoError.errorf "execute failed")) ∧
    RenderToString brokenTemplate () ≠ ("", some (GoError.errorf "execute failed")) := by
  decide

/-- C8, amended. If the template's `Execute` returns an error, `RenderToString`
returns that error together with exactly the text `Execute` wrote to the sink
before failing, chunk after chunk. -/
theorem renderToString_surfaces_error {Data X : Type} (tpl : Template Data X) (data : Data)
    (e : GoError X) (herr : (tpl.Execute Builder.zero data).2 = some e) :
    RenderToString tpl data = (String.join (tpl.behaviour data).1, some e) := by
  have hfold : ∀ (l : List String) (sb : Builder),
      (l.foldl Builder.Write sb).data = sb.data ++ String.join l := by
    intro l
    induction l with
    | nil => intro sb; simp [String.join]
    | cons x xs ih =>
      intro sb
      rw [List.foldl_cons, ih, join_cons, Builder.Write, String.append_assoc]
  simp only [Template.Execute] at herr
  simp [RenderToString, Template.Execute, Builder.String, hfold, herr, Builder.zero]

/-- C8, amended, at the template that writes two chunks and then fails. -/
theorem renderToString_surfaces_error_witness :
    RenderToString brokenTemplate () =
      (String.join (brokenTemplate.behaviour ()).1, some (GoError.errorf "execute failed")) :=
  renderToString_surfaces_error brokenTemplate () (GoError.errorf "execute failed") rfl

/-! ## `htmlRender` -/

/-- C9. `htmlRender.GetTemplate` with hot reload off never invokes the builder
and returns exactly the stored manager's `GetTemplate(name)`; with hot reload on
it invokes the builder exactly once, with the caller's context, returns
`(nil, err)` when the builder fails with `err`, and otherwise returns exactly
`GetTemplate(name)` of the manager just built. In both modes the receiver is
left unchanged. -/
theorem getTemplate_dispatch {Ctx T X : Type} (h : htmlRender Ctx T X) (ctx : Ctx)
    (tplName : String) :
    (h.GetTemplate ctx tplName).self = h ∧
    (h.hotReload = false →
      (h.GetTemplate ctx tplName).built = [] ∧
      (h.GetTemplate ctx tplName).tpl = (h.manager.GetTemplate tplName).1 ∧
      (h.GetTemplate ctx tplName).err = (h.manager.GetTemplate tplName).2) ∧
    (h.hotReload = true →
      (h.GetTemplate ctx tplName).built = [ctx] ∧
      (∀ err, h.builder ctx = .error err →
        (h.GetTemplate ctx tplName).tpl = none ∧
        (h.GetTemplate ctx tplName).err = some err) ∧
      (∀ m, h.builder ctx = .ok m →
        (h.GetTemplate ctx tplName).tpl = (m.GetTemplate tplName).1 ∧
        (h.GetTemplate ctx tplName).err = (m.GetTemplate tplName).2)) := by
  refine ⟨?_, ?_, ?_⟩
  · unfold htmlRender.GetTemplate
    cases h.hotReload
    · simp
    · cases h.builder ctx <;> simp
  · intro hoff
    simp [htmlRender.GetTemplate, hoff]
  · intro hon
    refine ⟨?_, ?_, ?_⟩
    · unfold htmlRender.GetTemplate
      cases h.builder ctx <;> simp [hon]
    · intro err hb
      simp [htmlRender.GetTemplate, hon, hb]
    · intro m hb
      simp [htmlRender.GetTemplate, hon, hb]

/-- C9 with hot reload off, with hot reload on and a working builder, and with
hot reload on and a failing builder. -/
theorem getTemplate_dispatch_witness :
    ((htmlRender.GetTemplate ⟨false, okBuilder, oldManager⟩ () "index.html").built = [] ∧
      (htmlRender.GetTemplate ⟨false, okBuilder, oldManager⟩ () "index.html").tpl =
        some "old/index.html") ∧
    ((htmlRender.GetTemplate ⟨true, okBuilder, oldManager⟩ () "index.html").built = [()] ∧
      (htmlRender.GetTemplate ⟨true, okBuilder, oldManager⟩ () "index.html").tpl =
        some "new/index.html" ∧
      (htmlRender.GetTemplate ⟨true, okBuilder, oldManager⟩ () "index.html").err = none) ∧
    ((htmlRender.GetTemplate ⟨true, badBuilder, oldManager⟩ () "index.html").tpl = none ∧
      (htmlRender.GetTemplate ⟨true, badBuilder, oldManager⟩ () "index.html").err =
        some (GoError.errorf "parse failed")) :=
  ⟨⟨((getTemplate_dispatch ⟨false, okBuilder, oldManager⟩ () "index.html").2.1 rfl).1,
      ((getTemplate_dispatch ⟨false, okBuilder, oldManager⟩ () "index.html").2.1 rfl).2.1⟩,
    ⟨((getTemplate_dispatch ⟨true, okBuilder, oldManager⟩ () "index.html").2.2 rfl).1,
      (((getTemplate_dispatch ⟨true, okBuilder, oldManager⟩ () "index.html").2.2 rfl).2.2
        newManager rfl).1,
      (((getTemplate_dispatch ⟨true, okBuilder, oldManager⟩ () "index.html").2.2 rfl).2.2
        newManager rfl).2⟩,
    ((getTemplate_dispatch ⟨true, badBuilder, oldManager⟩ () "index.html").2.2 rfl).2.1
      (GoError.errorf "parse failed") rfl⟩

/-- C10. `htmlRender.Reload` invokes the builder once and always returns a nil
error; when the builder fails the stored manager is the one stored before, when
it succeeds with `m` the stored manager is `m`; the hot-reload flag and the
builder are unchanged either way. -/
theorem reload_ignores_builder_error {Ctx T X : Type} (h : htmlRender Ctx T X) (ctx : Ctx) :
    (h.Reload ctx).err = none ∧
    (h.Reload ctx).built = [ctx] ∧
    (h.Reload ctx).self.hotReload = h.hotReload ∧
    (h.Reload ctx).self.builder = h.builder ∧
    (∀ e, h.builder ctx = .error e → (h.Reload ctx).self.manager = h.manager) ∧
    (∀ m, h.builder ctx = .ok m → (h.Reload ctx).self.manager = m) := by
  unfold htmlRender.Reload
  cases h.builder ctx <;> simp

/-- C10 at a failing builder (the old manager stays, no error is reported) and
at a working one (the new manager is stored). -/
theorem reload_ignores_builder_error_witness :
    ((htmlRender.Reload ⟨true, badBuilder, oldManager⟩ ()).err = none ∧
      (htmlRender.Reload ⟨true, badBuilder, oldManager⟩ ()).self.manager = oldManager) ∧
    ((htmlRender.Reload ⟨true, okBuilder, oldManager⟩ ()).err = none ∧
      (htmlRender.Reload ⟨true, okBuilder, oldManager⟩ ()).self.manager = newManager) :=
  ⟨⟨(reload_ignores_builder_error ⟨true, badBuilder, oldManager⟩ ()).1,
      (reload_ignores_builder_error ⟨true, badBuilder, oldManager⟩ ()).2.2.2.2.1
        (GoError.errorf "parse failed") rfl⟩,
    ⟨(reload_ignores_builder_error ⟨true, okBuilder, oldManager⟩ ()).1,
      (reload_ignores_builder_error ⟨true, okBuilder, oldManager⟩ ()).2.2.2.2.2
        newManager rfl⟩⟩

end Tpl
